import Mathlib

/-!
Shallow embedding of the `optimistic-mutation` Rust crate.

The crate provides clone-on-write smart pointers `CowRc<T>` (src/rc.rs, over
`std::rc::Rc`) and `CowArc<T>` (src/sync.rs, over `std::sync::Arc`), weak
observers `WeakCowRc` / `WeakCowArc`, and borrowed-view adapters
`ToCowRcSlice<T>` / `ToCowRcStr` (src/to_owned/) whose `ToOwned` produces a
`CowRc` instead of a `Vec`/`String`.

The embedding models the reference-counted allocation primitive as a heap:
a list of allocations, each carrying a value, a strong count and a weak
count.  A strong pointer is an index into the heap; a weak pointer is an
optional index (`Weak::new()` carries no index).  `Rc::make_mut` — the
engine behind `CowRc::deref_mut` — is modelled after its documented
semantics: clone to a fresh allocation if `strong > 1`; move to a fresh
allocation and disassociate weak pointers if `strong = 1` and `weak > 0`;
mutate in place otherwise.  The result carries a `cloned` flag recording
whether `T::clone` was invoked, so "no duplication" claims are statable.
-/

namespace OptMut

/-- One heap allocation of the reference-counting primitive: the stored
value plus the strong and weak reference counts. -/
structure Alloc (α : Type) where
  value : α
  strong : Nat
  weak : Nat
deriving DecidableEq, Repr

/-- The heap: allocations indexed by position.  Allocations are never
physically removed in the model; a dead allocation is one whose strong
count has reached zero. -/
abbrev Heap (α : Type) := List (Alloc α)

/-- Apply `f` to the allocation at index `i` (no-op when out of range). -/
def heapModify (h : Heap α) (i : Nat) (f : Alloc α → Alloc α) : Heap α :=
  match h[i]? with
  | some a => h.set i (f a)
  | none => h

/-- A raw strong handle, modelling `std::rc::Rc<T>` (an index into the heap). -/
structure RcPtr where
  id : Nat
deriving DecidableEq, Repr

/-- A raw weak handle, modelling `std::rc::Weak<T>`; `none` models
`Weak::new()`, which references no allocation. -/
structure WeakPtr where
  id : Option Nat
deriving DecidableEq, Repr

namespace Rc

/-- `Rc::new`: fresh allocation with strong = 1, weak = 0. -/
def new (h : Heap α) (v : α) : Heap α × RcPtr :=
  (h ++ [⟨v, 1, 0⟩], ⟨h.length⟩)

/-- `Rc::strong_count`. -/
def strong_count (h : Heap α) (p : RcPtr) : Nat :=
  match h[p.id]? with
  | some a => a.strong
  | none => 0

/-- `Rc::weak_count`: the number of weak pointers, or zero when no strong
pointer remains (as documented for `std::rc::Rc::weak_count`). -/
def weak_count (h : Heap α) (p : RcPtr) : Nat :=
  match h[p.id]? with
  | some a => if a.strong = 0 then 0 else a.weak
  | none => 0

/-- `Rc::clone`: increments the strong count of the same allocation and
returns a handle to that same allocation. -/
def clone (h : Heap α) (p : RcPtr) : Heap α × RcPtr :=
  (heapModify h p.id (fun a => { a with strong := a.strong + 1 }), p)

/-- `Rc::deref` / `Rc::as_ref`: read the stored value. -/
def deref (h : Heap α) (p : RcPtr) : Option α :=
  (h[p.id]?).map Alloc.value

/-- `Rc::downgrade`: increments the weak count, returns a weak handle to
the same allocation. -/
def downgrade (h : Heap α) (p : RcPtr) : Heap α × WeakPtr :=
  (heapModify h p.id (fun a => { a with weak := a.weak + 1 }), ⟨some p.id⟩)

/-- Result of `Rc::make_mut`: the updated heap, the (possibly new) strong
handle, and whether `T::clone` was invoked. -/
structure MakeMutResult (α : Type) where
  heap : Heap α
  ptr : RcPtr
  cloned : Bool
deriving Repr

/-- `Rc::make_mut`, the engine of `CowRc::deref_mut`:
if `strong ≠ 1`, clone the value into a fresh allocation (strong = 1,
weak = 0) and decrement the old allocation's strong count; otherwise if
`weak ≠ 0`, move the value into a fresh allocation and zero the old
allocation's strong count, disassociating all weak pointers; otherwise
hand out the existing allocation unchanged. -/
def make_mut (h : Heap α) (p : RcPtr) : MakeMutResult α :=
  match h[p.id]? with
  | none => ⟨h, p, false⟩
  | some a =>
    if a.strong ≠ 1 then
      let h1 := h.set p.id { a with strong := a.strong - 1 }
      ⟨h1 ++ [⟨a.value, 1, 0⟩], ⟨h1.length⟩, true⟩
    else if a.weak ≠ 0 then
      let h1 := h.set p.id { a with strong := 0 }
      ⟨h1 ++ [⟨a.value, 1, 0⟩], ⟨h1.length⟩, false⟩
    else ⟨h, p, false⟩

end Rc

namespace Weak

/-- `Weak::new`: references no allocation. -/
def new : WeakPtr := ⟨none⟩

/-- `Weak::upgrade`: succeeds iff the referenced allocation's strong count
is positive; on success increments it and returns a strong handle; on
failure leaves the heap unchanged and returns `none`. -/
def upgrade (h : Heap α) (w : WeakPtr) : Heap α × Option RcPtr :=
  match w.id with
  | none => (h, none)
  | some i =>
    match h[i]? with
    | none => (h, none)
    | some a =>
      if a.strong = 0 then (h, none)
      else (h.set i { a with strong := a.strong + 1 }, some ⟨i⟩)

end Weak

/-- `CowRc<T>` (src/rc.rs): a struct holding a private `rc: Rc<T>` field. -/
structure CowRc where
  rc : RcPtr
deriving DecidableEq, Repr

/-- `WeakCowRc<T>` (src/rc.rs): a struct holding a `weak: Weak<T>` field. -/
structure WeakCowRc where
  weak : WeakPtr
deriving DecidableEq, Repr

namespace CowRc

/-- `CowRc::from_rc`. -/
def from_rc (r : RcPtr) : CowRc := ⟨r⟩

/-- `CowRc::as_rc`. -/
def as_rc (c : CowRc) : RcPtr := c.rc

/-- `CowRc::unwrap_rc`. -/
def unwrap_rc (c : CowRc) : RcPtr := c.rc

/-- `CowRc::new`: `value |> Rc::new |> Self::from_rc`. -/
def new (h : Heap α) (v : α) : Heap α × CowRc :=
  let r := Rc.new h v
  (r.1, from_rc r.2)

/-- Derived `Clone for CowRc`: clones the `rc` field via `Rc::clone`. -/
def clone (h : Heap α) (c : CowRc) : Heap α × CowRc :=
  let r := Rc.clone h c.rc
  (r.1, from_rc r.2)

/-- `CowRc::needs_cloning_to_mutate`: `Rc::strong_count(&this.rc) > 1`. -/
def needs_cloning_to_mutate (h : Heap α) (c : CowRc) : Bool :=
  decide (Rc.strong_count h c.rc > 1)

/-- `CowRc::is_unique`:
`!needs_cloning_to_mutate(this) && Rc::weak_count(&this.rc) == 0`. -/
def is_unique (h : Heap α) (c : CowRc) : Bool :=
  !needs_cloning_to_mutate h c && decide (Rc.weak_count h c.rc = 0)

/-- `CowRc::downgrade`: `&this.rc => Rc::downgrade => WeakCowRc::from_weak`. -/
def downgrade (h : Heap α) (c : CowRc) : Heap α × WeakCowRc :=
  let r := Rc.downgrade h c.rc
  (r.1, ⟨r.2⟩)

/-- `Deref for CowRc`: `&self.rc => Rc::deref`. -/
def deref (h : Heap α) (c : CowRc) : Option α :=
  Rc.deref h c.rc

/-- `DerefMut for CowRc` is `&mut self.rc => Rc::make_mut`; a mutation
`*c = f(*c)` through the returned mutable view is modelled as `make_mut`
followed by applying `f` to the value of the resulting allocation.
Returns the new heap, the pointer (whose allocation may have changed) and
whether `T::clone` was invoked. -/
def mutate (f : α → α) (h : Heap α) (c : CowRc) : Heap α × CowRc × Bool :=
  let r := Rc.make_mut h c.rc
  (heapModify r.heap r.ptr.id (fun a => { a with value := f a.value }),
    from_rc r.ptr, r.cloned)

end CowRc

namespace WeakCowRc

/-- `WeakCowRc::new`: `Weak::new() => Self::from_weak`. -/
def new : WeakCowRc := ⟨Weak.new⟩

/-- `WeakCowRc::from_weak`. -/
def from_weak (w : WeakPtr) : WeakCowRc := ⟨w⟩

/-- `WeakCowRc::upgrade`: `self.weak.upgrade().map(CowRc::from_rc)`. -/
def upgrade (h : Heap α) (w : WeakCowRc) : Heap α × Option CowRc :=
  let r := Weak.upgrade h w.weak
  (r.1, r.2.map CowRc.from_rc)

end WeakCowRc

/-! The thread-safe variant (src/sync.rs): `CowArc<T>` over `std::sync::Arc`.
The atomicity of the counters is not representable in a sequential model;
the observable (single-threaded) semantics of `Arc::new`, `Arc::clone`,
`Arc::strong_count`, `Arc::weak_count`, `Arc::downgrade`, `Weak::upgrade`
and `Arc::make_mut` are those documented by the Rust standard library and
are embedded below, separately from the `Rc` embedding. -/

/-- A raw strong handle, modelling `std::sync::Arc<T>`. -/
structure ArcPtr where
  id : Nat
deriving DecidableEq, Repr

/-- A raw weak handle, modelling `std::sync::Weak<T>`. -/
structure SyncWeakPtr where
  id : Option Nat
deriving DecidableEq, Repr

namespace Arc

/-- `Arc::new`. -/
def new (h : Heap α) (v : α) : Heap α × ArcPtr :=
  (h ++ [⟨v, 1, 0⟩], ⟨h.length⟩)

/-- `Arc::strong_count`. -/
def strong_count (h : Heap α) (p : ArcPtr) : Nat :=
  match h[p.id]? with
  | some a => a.strong
  | none => 0

/-- `Arc::weak_count`. -/
def weak_count (h : Heap α) (p : ArcPtr) : Nat :=
  match h[p.id]? with
  | some a => if a.strong = 0 then 0 else a.weak
  | none => 0

/-- `Arc::clone`. -/
def clone (h : Heap α) (p : ArcPtr) : Heap α × ArcPtr :=
  (heapModify h p.id (fun a => { a with strong := a.strong + 1 }), p)

/-- `Arc::deref` / `Arc::as_ref`. -/
def deref (h : Heap α) (p : ArcPtr) : Option α :=
  (h[p.id]?).map Alloc.value

/-- `Arc::downgrade`. -/
def downgrade (h : Heap α) (p : ArcPtr) : Heap α × SyncWeakPtr :=
  (heapModify h p.id (fun a => { a with weak := a.weak + 1 }), ⟨some p.id⟩)

/-- Result of `Arc::make_mut`. -/
structure MakeMutResult (α : Type) where
  heap : Heap α
  ptr : ArcPtr
  cloned : Bool
deriving Repr

/-- `Arc::make_mut`, same documented semantics as `Rc::make_mut`. -/
def make_mut (h : Heap α) (p : ArcPtr) : MakeMutResult α :=
  match h[p.id]? with
  | none => ⟨h, p, false⟩
  | some a =>
    if a.strong ≠ 1 then
      let h1 := h.set p.id { a with strong := a.strong - 1 }
      ⟨h1 ++ [⟨a.value, 1, 0⟩], ⟨h1.length⟩, true⟩
    else if a.weak ≠ 0 then
      let h1 := h.set p.id { a with strong := 0 }
      ⟨h1 ++ [⟨a.value, 1, 0⟩], ⟨h1.length⟩, false⟩
    else ⟨h, p, false⟩

end Arc

namespace SyncWeak

/-- `sync::Weak::new`. -/
def new : SyncWeakPtr := ⟨none⟩

/-- `sync::Weak::upgrade`. -/
def upgrade (h : Heap α) (w : SyncWeakPtr) : Heap α × Option ArcPtr :=
  match w.id with
  | none => (h, none)
  | some i =>
    match h[i]? with
    | none => (h, none)
    | some a =>
      if a.strong = 0 then (h, none)
      else (h.set i { a with strong := a.strong + 1 }, some ⟨i⟩)

end SyncWeak

/-- `CowArc<T>` (src/sync.rs): a struct holding an `arc: Arc<T>` field. -/
structure CowArc where
  arc : ArcPtr
deriving DecidableEq, Repr

/-- `WeakCowArc<T>` (src/sync.rs). -/
structure WeakCowArc where
  weak : SyncWeakPtr
deriving DecidableEq, Repr

namespace CowArc

/-- `CowArc::from_arc`. -/
def from_arc (r : ArcPtr) : CowArc := ⟨r⟩

/-- `CowArc::new`: `value |> Arc::new |> Self::from_arc`. -/
def new (h : Heap α) (v : α) : Heap α × CowArc :=
  let r := Arc.new h v
  (r.1, from_arc r.2)

/-- Derived `Clone for CowArc`. -/
def clone (h : Heap α) (c : CowArc) : Heap α × CowArc :=
  let r := Arc.clone h c.arc
  (r.1, from_arc r.2)

/-- `CowArc::needs_cloning_to_mutate`: `Arc::strong_count(&this.arc) > 1`. -/
def needs_cloning_to_mutate (h : Heap α) (c : CowArc) : Bool :=
  decide (Arc.strong_count h c.arc > 1)

/-- `CowArc::is_unique`. -/
def is_unique (h : Heap α) (c : CowArc) : Bool :=
  !needs_cloning_to_mutate h c && decide (Arc.weak_count h c.arc = 0)

/-- `CowArc::downgrade`. -/
def downgrade (h : Heap α) (c : CowArc) : Heap α × WeakCowArc :=
  let r := Arc.downgrade h c.arc
  (r.1, ⟨r.2⟩)

/-- `Deref`/`AsRef` for `CowArc`. -/
def deref (h : Heap α) (c : CowArc) : Option α :=
  Arc.deref h c.arc

/-- `DerefMut`/`AsMut` for `CowArc`: `Arc::make_mut` then apply `f`. -/
def mutate (f : α → α) (h : Heap α) (c : CowArc) : Heap α × CowArc × Bool :=
  let r := Arc.make_mut h c.arc
  (heapModify r.heap r.ptr.id (fun a => { a with value := f a.value }),
    from_arc r.ptr, r.cloned)

end CowArc

namespace WeakCowArc

/-- `WeakCowArc::new`. -/
def new : WeakCowArc := ⟨SyncWeak.new⟩

/-- `WeakCowArc::from_weak`. -/
def from_weak (w : SyncWeakPtr) : WeakCowArc := ⟨w⟩

/-- `WeakCowArc::upgrade`. -/
def upgrade (h : Heap α) (w : WeakCowArc) : Heap α × Option CowArc :=
  let r := SyncWeak.upgrade h w.weak
  (r.1, r.2.map CowArc.from_arc)

end WeakCowArc

/-! Structural comparison of `CowRc` (src/rc.rs line 9): the derived
`PartialEq`/`Eq`/`Ord`/`PartialOrd`/`Hash` delegate to the `rc` field,
and `Rc<T>`'s implementations delegate to the contained value. -/

/-- Derived `PartialEq for CowRc`: compares the contained values
(`Rc`'s `PartialEq` compares `**self == **other`). -/
def CowRc.eqv [DecidableEq α] (h : Heap α) (c d : CowRc) : Bool :=
  decide (Rc.deref h c.rc = Rc.deref h d.rc)

/-- Derived `Ord for CowRc` given a comparison on the value type:
`Rc`'s `Ord` compares the contained values; `none` only arises for
handles outside the heap, which a live `CowRc` never is. -/
def CowRc.cmp (cmpv : α → α → Ordering) (h : Heap α) (c d : CowRc) :
    Option Ordering :=
  match Rc.deref h c.rc, Rc.deref h d.rc with
  | some x, some y => some (cmpv x y)
  | _, _ => none

/-- Derived `Hash for CowRc` given a hash on the value type: `Rc`'s
`Hash` hashes the contained value. -/
def CowRc.hashv (hf : α → Nat) (h : Heap α) (c : CowRc) : Option Nat :=
  (Rc.deref h c.rc).map hf

/-! The borrowed-view adapters (src/to_owned/).  A `&ToCowRcSlice<T>` is a
layout-preserving reinterpretation of a `&[T]`, modelled as the sequence
of elements (`List α`); a `&ToCowRcStr` is a reinterpretation of a `&str`,
modelled as a `String`.  Their `ToOwned` implementations build a `CowRc`
from the borrowed data. -/

/-- `ToOwned for ToCowRcSlice<T>`: `CowRc::from(&self.slice)`, i.e.
`Rc::<[T]>::from(&[T])`, which copies every element into a freshly
allocated `Rc` with strong = 1, weak = 0. -/
def ToCowRcSlice.to_owned (h : Heap (List α)) (s : List α) :
    Heap (List α) × CowRc :=
  CowRc.new h s

/-- `ToOwned for ToCowRcStr`: `CowRc::from(&self.str)`, i.e.
`Rc::<str>::from(&str)`, which copies every byte into a freshly
allocated `Rc` with strong = 1, weak = 0. -/
def ToCowRcStr.to_owned (h : Heap String) (s : String) :
    Heap String × CowRc :=
  CowRc.new h s

/-- `FromIterator for CowRc<[T]>` (src/to_owned/cow_rc_slice.rs):
`iter |> Vec::from_iter |> Self::from`; the iterator is modelled as the
list of items it yields, `Vec::from_iter` collects them in order, and
`From<Vec<T>> for CowRc<[T]>` moves the buffer into a fresh allocation. -/
def CowRc.from_iter (h : Heap (List α)) (l : List α) :
    Heap (List α) × CowRc :=
  CowRc.new h l

/-- `From<CowRc<[T]>> for Vec<T>` (src/to_owned/cow_rc_slice.rs):
`value.deref().into()`, copying the slice into a growable buffer. -/
def CowRc.to_vec (h : Heap (List α)) (c : CowRc) : Option (List α) :=
  CowRc.deref h c

/-- `n` consecutive mutable accesses through one `CowRc`, each applying
the next mutation function; returns the final heap, the final pointer and
the total number of `T::clone` invocations. -/
def CowRc.mutateSeq (fs : List (α → α)) (h : Heap α) (c : CowRc) :
    Heap α × CowRc × Nat :=
  match fs with
  | [] => (h, c, 0)
  | f :: rest =>
    let r := CowRc.mutate f h c
    let s := CowRc.mutateSeq rest r.1 r.2.1
    (s.1, s.2.1, (if r.2.2 then 1 else 0) + s.2.2)

/-! A small operation language covering the crate's single-threaded API
surface (construct, clone, borrow, mutable access, downgrade, upgrade,
the count predicates), interpreted once with the `CowRc` family and once
with the `CowArc` family, to compare the two variants' observable
behaviour. -/

/-- One API call; pointer and observer arguments are indices into the
environments of previously created pointers/observers. -/
inductive Op (α : Type) where
  | construct (v : α)
  | clonePtr (p : Nat)
  | borrow (p : Nat)
  | mutate (p : Nat) (f : α → α)
  | downgrade (p : Nat)
  | weakNew
  | upgrade (w : Nat)
  | needsCloning (p : Nat)
  | isUnique (p : Nat)
  | strongCount (p : Nat)
  | weakCount (p : Nat)

/-- The observable outcome of one API call. -/
inductive Obs (α : Type) where
  | ptr (i : Nat)
  | weakPtr (i : Nat)
  | val (v : Option α)
  | flag (b : Bool)
  | num (n : Nat)
  | upgraded (i : Option Nat)
  | invalid
deriving DecidableEq, Repr

/-- State of a program using the thread-confined variant. -/
structure RcMachine (α : Type) where
  heap : Heap α
  ptrs : List CowRc
  weaks : List WeakCowRc

/-- Interpret one call with the `CowRc` family. -/
def RcMachine.step (s : RcMachine α) : Op α → RcMachine α × Obs α
  | .construct v =>
    let r := CowRc.new s.heap v
    (⟨r.1, s.ptrs ++ [r.2], s.weaks⟩, .ptr s.ptrs.length)
  | .clonePtr p =>
    match s.ptrs[p]? with
    | none => (s, .invalid)
    | some c =>
      let r := CowRc.clone s.heap c
      (⟨r.1, s.ptrs ++ [r.2], s.weaks⟩, .ptr s.ptrs.length)
  | .borrow p =>
    match s.ptrs[p]? with
    | none => (s, .invalid)
    | some c => (s, .val (CowRc.deref s.heap c))
  | .mutate p f =>
    match s.ptrs[p]? with
    | none => (s, .invalid)
    | some c =>
      let r := CowRc.mutate f s.heap c
      (⟨r.1, s.ptrs.set p r.2.1, s.weaks⟩, .flag r.2.2)
  | .downgrade p =>
    match s.ptrs[p]? with
    | none => (s, .invalid)
    | some c =>
      let r := CowRc.downgrade s.heap c
      (⟨r.1, s.ptrs, s.weaks ++ [r.2]⟩, .weakPtr s.weaks.length)
  | .weakNew =>
    (⟨s.heap, s.ptrs, s.weaks ++ [WeakCowRc.new]⟩, .weakPtr s.weaks.length)
  | .upgrade w =>
    match s.weaks[w]? with
    | none => (s, .invalid)
    | some wc =>
      let r := WeakCowRc.upgrade s.heap wc
      match r.2 with
      | none => (⟨r.1, s.ptrs, s.weaks⟩, .upgraded none)
      | some c =>
        (⟨r.1, s.ptrs ++ [c], s.weaks⟩, .upgraded (some s.ptrs.length))
  | .needsCloning p =>
    match s.ptrs[p]? with
    | none => (s, .invalid)
    | some c => (s, .flag (CowRc.needs_cloning_to_mutate s.heap c))
  | .isUnique p =>
    match s.ptrs[p]? with
    | none => (s, .invalid)
    | some c => (s, .flag (CowRc.is_unique s.heap c))
  | .strongCount p =>
    match s.ptrs[p]? with
    | none => (s, .invalid)
    | some c => (s, .num (Rc.strong_count s.heap c.rc))
  | .weakCount p =>
    match s.ptrs[p]? with
    | none => (s, .invalid)
    | some c => (s, .num (Rc.weak_count s.heap c.rc))

/-- Interpret a call sequence with the `CowRc` family, collecting the
observable outcome of each call. -/
def RcMachine.run (s : RcMachine α) : List (Op α) → List (Obs α)
  | [] => []
  | op :: ops =>
    let r := s.step op
    r.2 :: r.1.run ops

/-- State of a program using the thread-safe variant. -/
structure ArcMachine (α : Type) where
  heap : Heap α
  ptrs : List CowArc
  weaks : List WeakCowArc

/-- Interpret one call with the `CowArc` family. -/
def ArcMachine.step (s : ArcMachine α) : Op α → ArcMachine α × Obs α
  | .construct v =>
    let r := CowArc.new s.heap v
    (⟨r.1, s.ptrs ++ [r.2], s.weaks⟩, .ptr s.ptrs.length)
  | .clonePtr p =>
    match s.ptrs[p]? with
    | none => (s, .invalid)
    | some c =>
      let r := CowArc.clone s.heap c
      (⟨r.1, s.ptrs ++ [r.2], s.weaks⟩, .ptr s.ptrs.length)
  | .borrow p =>
    match s.ptrs[p]? with
    | none => (s, .invalid)
    | some c => (s, .val (CowArc.deref s.heap c))
  | .mutate p f =>
    match s.ptrs[p]? with
    | none => (s, .invalid)
    | some c =>
      let r := CowArc.mutate f s.heap c
      (⟨r.1, s.ptrs.set p r.2.1, s.weaks⟩, .flag r.2.2)
  | .downgrade p =>
    match s.ptrs[p]? with
    | none => (s, .invalid)
    | some c =>
      let r := CowArc.downgrade s.heap c
      (⟨r.1, s.ptrs, s.weaks ++ [r.2]⟩, .weakPtr s.weaks.length)
  | .weakNew =>
    (⟨s.heap, s.ptrs, s.weaks ++ [WeakCowArc.new]⟩, .weakPtr s.weaks.length)
  | .upgrade w =>
    match s.weaks[w]? with
    | none => (s, .invalid)
    | some wc =>
      let r := WeakCowArc.upgrade s.heap wc
      match r.2 with
      | none => (⟨r.1, s.ptrs, s.weaks⟩, .upgraded none)
      | some c =>
        (⟨r.1, s.ptrs ++ [c], s.weaks⟩, .upgraded (some s.ptrs.length))
  | .needsCloning p =>
    match s.ptrs[p]? with
    | none => (s, .invalid)
    | some c => (s, .flag (CowArc.needs_cloning_to_mutate s.heap c))
  | .isUnique p =>
    match s.ptrs[p]? with
    | none => (s, .invalid)
    | some c => (s, .flag (CowArc.is_unique s.heap c))
  | .strongCount p =>
    match s.ptrs[p]? with
    | none => (s, .invalid)
    | some c => (s, .num (Arc.strong_count s.heap c.arc))
  | .weakCount p =>
    match s.ptrs[p]? with
    | none => (s, .invalid)
    | some c => (s, .num (Arc.weak_count s.heap c.arc))

/-- Interpret a call sequence with the `CowArc` family. -/
def ArcMachine.run (s : ArcMachine α) : List (Op α) → List (Obs α)
  | [] => []
  | op :: ops =>
    let r := s.step op
    r.2 :: r.1.run ops

/-- Transport a thread-confined pointer to the thread-safe family. -/
def CowRc.toArc (c : CowRc) : CowArc := ⟨⟨c.rc.id⟩⟩

/-- Transport a thread-confined observer to the thread-safe family. -/
def WeakCowRc.toArc (w : WeakCowRc) : WeakCowArc := ⟨⟨w.weak.id⟩⟩

/-- Transport a whole machine state to the thread-safe family. -/
def RcMachine.toArc (s : RcMachine α) : ArcMachine α :=
  ⟨s.heap, s.ptrs.map CowRc.toArc, s.weaks.map WeakCowRc.toArc⟩

/-! Helper lemmas about heap bookkeeping, shared by several claims. -/

theorem lt_length_of_lookup {l : List β} {i : Nat} {a : β}
    (h : l[i]? = some a) : i < l.length :=
  (List.getElem?_eq_some.mp h).1

theorem set_concat_length (l : List β) (x y : β) :
    (l ++ [x]).set l.length y = l ++ [y] := by
  induction l with
  | nil => rfl
  | cons hd tl ih => simp [List.set, ih]

/-- `CowRc::deref_mut` in the `Exclusive` regime (strong = 1, weak = 0):
in place, same allocation, no clone. -/
theorem CowRc.mutate_exclusive {h : Heap α} {c : CowRc} {a : Alloc α}
    (ha : h[c.rc.id]? = some a) (hs : a.strong = 1) (hw : a.weak = 0)
    (f : α → α) :
    CowRc.mutate f h c =
      (h.set c.rc.id { a with value := f a.value }, c, false) := by
  simp only [CowRc.mutate, Rc.make_mut, ha, hs, hw, ne_eq,
    not_true_eq_false, if_false, not_false_iff, if_neg, ite_false]
  simp [heapModify, ha, CowRc.from_rc]
  rw [hs, hw]

/-- `CowRc::deref_mut` in the `ExclusiveObserved` regime (strong = 1,
weak > 0): the value moves (no clone) to a fresh allocation with
strong = 1, weak = 0; the old allocation's strong count drops to 0. -/
theorem CowRc.mutate_observed {h : Heap α} {c : CowRc} {a : Alloc α}
    (ha : h[c.rc.id]? = some a) (hs : a.strong = 1) (hw : 0 < a.weak)
    (f : α → α) :
    CowRc.mutate f h c =
      ((h.set c.rc.id { a with strong := 0 }) ++ [⟨f a.value, 1, 0⟩],
        CowRc.from_rc ⟨h.length⟩, false) := by
  have hwne : a.weak ≠ 0 := Nat.pos_iff_ne_zero.mp hw
  simp only [CowRc.mutate, Rc.make_mut, ha, hs, ne_eq, not_true_eq_false,
    if_false, hwne, not_false_iff, if_true, ite_false, ite_true]
  have hlen : (h.set c.rc.id { a with strong := 0 }).length = h.length := by
    simp
  simp only [heapModify, List.getElem?_concat_length, set_concat_length]
  rw [hlen]

/-- `CowRc::deref_mut` in the `Shared` regime (strong > 1): the value is
cloned to a fresh allocation with strong = 1, weak = 0; the old
allocation's strong count is decremented by one. -/
theorem CowRc.mutate_shared {h : Heap α} {c : CowRc} {a : Alloc α}
    (ha : h[c.rc.id]? = some a) (hs : 1 < a.strong) (f : α → α) :
    CowRc.mutate f h c =
      ((h.set c.rc.id { a with strong := a.strong - 1 }) ++
          [⟨f a.value, 1, 0⟩],
        CowRc.from_rc ⟨h.length⟩, true) := by
  have hsne : a.strong ≠ 1 := Nat.ne_of_gt hs
  simp only [CowRc.mutate, Rc.make_mut, ha, hsne, ne_eq, not_false_iff,
    if_true, ite_true]
  have hlen :
      (h.set c.rc.id { a with strong := a.strong - 1 }).length =
        h.length := by
    simp
  simp only [heapModify, List.getElem?_concat_length, set_concat_length]
  rw [hlen]

/-- C1: disassociation on sole-owner mutation.  For a pointer whose
allocation has strong = 1 and weak > 0, a mutable access moves the value
into a brand-new allocation (index `h.length`) with strong = 1 and
weak = 0; no clone of the value is invoked; the pointer afterwards
observes the mutated value; and every weak observer issued before the
mutation (hence referencing the old allocation) fails to upgrade, with no
side effects. -/
theorem C1_sole_owner_disassociation {α : Type} {h : Heap α} {c : CowRc}
    {a : Alloc α} (f : α → α) (w : WeakCowRc)
    (ha : h[c.rc.id]? = some a) (hs : a.strong = 1) (hw : 0 < a.weak)
    (hwp : w.weak.id = some c.rc.id) :
    (CowRc.mutate f h c).2.2 = false ∧
    (CowRc.mutate f h c).2.1.rc.id = h.length ∧
    (CowRc.mutate f h c).1[(CowRc.mutate f h c).2.1.rc.id]? =
      some ⟨f a.value, 1, 0⟩ ∧
    Rc.strong_count (CowRc.mutate f h c).1 (CowRc.mutate f h c).2.1.rc = 1 ∧
    Rc.weak_count (CowRc.mutate f h c).1 (CowRc.mutate f h c).2.1.rc = 0 ∧
    CowRc.deref (CowRc.mutate f h c).1 (CowRc.mutate f h c).2.1 =
      some (f a.value) ∧
    WeakCowRc.upgrade (CowRc.mutate f h c).1 w =
      ((CowRc.mutate f h c).1, none) := by
  have hm := CowRc.mutate_observed ha hs hw f
  have hlt : c.rc.id < h.length := lt_length_of_lookup ha
  have hlen : (h.set c.rc.id { a with strong := 0 }).length = h.length := by
    simp
  have hfresh :
      ((h.set c.rc.id { a with strong := 0 }) ++
          [(⟨f a.value, 1, 0⟩ : Alloc α)])[h.length]? =
        some ⟨f a.value, 1, 0⟩ := by
    rw [← hlen]
    exact List.getElem?_concat_length _ _
  have hold :
      ((h.set c.rc.id { a with strong := 0 }) ++
          [(⟨f a.value, 1, 0⟩ : Alloc α)])[c.rc.id]? =
        some ⟨a.value, 0, a.weak⟩ := by
    rw [List.getElem?_append_left (by simpa using hlt)]
    exact List.getElem?_set_eq_of_lt _ hlt
  rw [hm]
  refine ⟨rfl, rfl, ?_, ?_, ?_, ?_, ?_⟩
  · exact hfresh
  · simp [Rc.strong_count, CowRc.from_rc, hfresh]
  · simp [Rc.weak_count, CowRc.from_rc, hfresh]
  · simp [CowRc.deref, Rc.deref, CowRc.from_rc, hfresh]
  · simp [WeakCowRc.upgrade, Weak.upgrade, hwp, hold]

/-- C1 witness: Scenario B.  Heap after `CowRc::new(75)` and one
`downgrade`: a single allocation `⟨75, 1, 1⟩`; mutating `+1` through the
sole owner moves 76 to a fresh allocation and the observer fails. -/
theorem C1_sole_owner_disassociation_witness :
    (([⟨75, 1, 1⟩] : Heap Nat)[(⟨⟨0⟩⟩ : CowRc).rc.id]? =
        some ⟨75, 1, 1⟩) ∧
    ((CowRc.mutate (fun x => x + 1) [⟨75, 1, 1⟩] ⟨⟨0⟩⟩).2.2 = false ∧
    (CowRc.mutate (fun x => x + 1) [⟨75, 1, 1⟩] ⟨⟨0⟩⟩).2.1.rc.id =
      ([⟨75, 1, 1⟩] : Heap Nat).length ∧
    (CowRc.mutate (fun x => x + 1) [⟨75, 1, 1⟩]
        ⟨⟨0⟩⟩).1[(CowRc.mutate (fun x => x + 1) [⟨75, 1, 1⟩]
        ⟨⟨0⟩⟩).2.1.rc.id]? = some ⟨76, 1, 0⟩ ∧
    Rc.strong_count (CowRc.mutate (fun x => x + 1) [⟨75, 1, 1⟩] ⟨⟨0⟩⟩).1
      (CowRc.mutate (fun x => x + 1) [⟨75, 1, 1⟩] ⟨⟨0⟩⟩).2.1.rc = 1 ∧
    Rc.weak_count (CowRc.mutate (fun x => x + 1) [⟨75, 1, 1⟩] ⟨⟨0⟩⟩).1
      (CowRc.mutate (fun x => x + 1) [⟨75, 1, 1⟩] ⟨⟨0⟩⟩).2.1.rc = 0 ∧
    CowRc.deref (CowRc.mutate (fun x => x + 1) [⟨75, 1, 1⟩] ⟨⟨0⟩⟩).1
      (CowRc.mutate (fun x => x + 1) [⟨75, 1, 1⟩] ⟨⟨0⟩⟩).2.1 = some 76 ∧
    WeakCowRc.upgrade (CowRc.mutate (fun x => x + 1) [⟨75, 1, 1⟩] ⟨⟨0⟩⟩).1
      ⟨⟨some 0⟩⟩ =
      ((CowRc.mutate (fun x => x + 1) [⟨75, 1, 1⟩] ⟨⟨0⟩⟩).1, none)) :=
  ⟨by decide,
    C1_sole_owner_disassociation (a := ⟨75, 1, 1⟩) (fun x => x + 1)
      ⟨⟨some 0⟩⟩ (by decide) (by decide) (by decide) (by decide)⟩

/-- C2: clone-on-write on shared mutation.  For a pointer whose
allocation has strong > 1, a mutable access invokes the value's clone
exactly once, adds exactly one new allocation (strong = 1, weak = 0)
holding the mutated value, decrements the old allocation's strong count
by one leaving its value and weak count untouched; any other strong
pointer to the old allocation still reads the pre-mutation value, and a
weak observer of the old allocation still upgrades successfully to the
pre-mutation value. -/
theorem C2_shared_clone_on_write {α : Type} {h : Heap α} {c : CowRc}
    {a : Alloc α} (f : α → α) (w : WeakCowRc)
    (ha : h[c.rc.id]? = some a) (hs : 1 < a.strong)
    (hwp : w.weak.id = some c.rc.id) :
    (CowRc.mutate f h c).2.2 = true ∧
    (CowRc.mutate f h c).1.length = h.length + 1 ∧
    (CowRc.mutate f h c).2.1.rc.id = h.length ∧
    (CowRc.mutate f h c).1[h.length]? = some ⟨f a.value, 1, 0⟩ ∧
    (CowRc.mutate f h c).1[c.rc.id]? =
      some ⟨a.value, a.strong - 1, a.weak⟩ ∧
    CowRc.deref (CowRc.mutate f h c).1 (CowRc.from_rc ⟨c.rc.id⟩) =
      some a.value ∧
    (WeakCowRc.upgrade (CowRc.mutate f h c).1 w).2 =
      some (CowRc.from_rc ⟨c.rc.id⟩) ∧
    CowRc.deref (WeakCowRc.upgrade (CowRc.mutate f h c).1 w).1
      (CowRc.from_rc ⟨c.rc.id⟩) = some a.value := by
  have hm := CowRc.mutate_shared ha hs f
  have hlt : c.rc.id < h.length := lt_length_of_lookup ha
  have hlen :
      (h.set c.rc.id { a with strong := a.strong - 1 }).length =
        h.length := by
    simp
  have hfresh :
      ((h.set c.rc.id { a with strong := a.strong - 1 }) ++
          [(⟨f a.value, 1, 0⟩ : Alloc α)])[h.length]? =
        some ⟨f a.value, 1, 0⟩ := by
    rw [← hlen]
    exact List.getElem?_concat_length _ _
  have hold :
      ((h.set c.rc.id { a with strong := a.strong - 1 }) ++
          [(⟨f a.value, 1, 0⟩ : Alloc α)])[c.rc.id]? =
        some ⟨a.value, a.strong - 1, a.weak⟩ := by
    rw [List.getElem?_append_left (by simpa using hlt)]
    exact List.getElem?_set_eq_of_lt _ hlt
  have hsnz : a.strong - 1 ≠ 0 := by omega
  rw [hm]
  refine ⟨rfl, by simp, rfl, hfresh, hold, ?_, ?_, ?_⟩
  · simp [CowRc.deref, Rc.deref, CowRc.from_rc, hold]
  · simp [WeakCowRc.upgrade, Weak.upgrade, hwp, hold, hsnz]
  · simp only [WeakCowRc.upgrade, Weak.upgrade, hwp, hold, hsnz,
      if_false, ite_false]
    simp only [CowRc.deref, Rc.deref, CowRc.from_rc]
    rw [List.getElem?_set_eq_of_lt _ (by simp; omega)]
    rfl

/-- C2 witness: Scenario C.  Heap after `CowRc::new(75)`, one `clone`
and one `downgrade`: a single allocation `⟨75, 2, 1⟩`; mutating `+1`
through one owner clones 75 once into a fresh allocation holding 76, the
other owner still reads 75 and the observer upgrades to 75. -/
theorem C2_shared_clone_on_write_witness :
    (([⟨75, 2, 1⟩] : Heap Nat)[(⟨⟨0⟩⟩ : CowRc).rc.id]? =
        some ⟨75, 2, 1⟩) ∧
    ((CowRc.mutate (fun x => x + 1) [⟨75, 2, 1⟩] ⟨⟨0⟩⟩).2.2 = true ∧
    (CowRc.mutate (fun x => x + 1) [⟨75, 2, 1⟩] ⟨⟨0⟩⟩).1.length =
      ([⟨75, 2, 1⟩] : Heap Nat).length + 1 ∧
    (CowRc.mutate (fun x => x + 1) [⟨75, 2, 1⟩] ⟨⟨0⟩⟩).2.1.rc.id =
      ([⟨75, 2, 1⟩] : Heap Nat).length ∧
    (CowRc.mutate (fun x => x + 1) [⟨75, 2, 1⟩]
        ⟨⟨0⟩⟩).1[([⟨75, 2, 1⟩] : Heap Nat).length]? = some ⟨76, 1, 0⟩ ∧
    (CowRc.mutate (fun x => x + 1) [⟨75, 2, 1⟩] ⟨⟨0⟩⟩).1[(⟨⟨0⟩⟩ :
        CowRc).rc.id]? = some ⟨75, 2 - 1, 1⟩ ∧
    CowRc.deref (CowRc.mutate (fun x => x + 1) [⟨75, 2, 1⟩] ⟨⟨0⟩⟩).1
      (CowRc.from_rc ⟨0⟩) = some 75 ∧
    (WeakCowRc.upgrade
        (CowRc.mutate (fun x => x + 1) [⟨75, 2, 1⟩] ⟨⟨0⟩⟩).1
        ⟨⟨some 0⟩⟩).2 = some (CowRc.from_rc ⟨0⟩) ∧
    CowRc.deref
      (WeakCowRc.upgrade
        (CowRc.mutate (fun x => x + 1) [⟨75, 2, 1⟩] ⟨⟨0⟩⟩).1
        ⟨⟨some 0⟩⟩).1 (CowRc.from_rc ⟨0⟩) = some 75) :=
  ⟨by decide,
    C2_shared_clone_on_write (a := ⟨75, 2, 1⟩) (fun x => x + 1)
      ⟨⟨some 0⟩⟩ (by decide) (by decide) (by decide)⟩

/-- C3: optimistic in-place mutation.  For a pointer whose allocation has
strong = 1 and weak = 0, any number of consecutive mutable accesses stays
on the same allocation (same pointer, heap size unchanged), invokes the
value's clone zero times, and leaves the allocation holding the fold of
the mutation functions with strong = 1 and weak = 0. -/
theorem C3_exclusive_no_duplication {α : Type} {h : Heap α} {c : CowRc}
    {a : Alloc α} (fs : List (α → α))
    (ha : h[c.rc.id]? = some a) (hs : a.strong = 1) (hw : a.weak = 0) :
    (CowRc.mutateSeq fs h c).2.1 = c ∧
    (CowRc.mutateSeq fs h c).2.2 = 0 ∧
    (CowRc.mutateSeq fs h c).1.length = h.length ∧
    (CowRc.mutateSeq fs h c).1[c.rc.id]? =
      some ⟨fs.foldl (fun v g => g v) a.value, 1, 0⟩ := by
  induction fs generalizing h a with
  | nil =>
    refine ⟨rfl, rfl, rfl, ?_⟩
    have hval : a = ⟨a.value, 1, 0⟩ := by
      cases a
      simp_all
    simpa [CowRc.mutateSeq] using hval ▸ ha
  | cons f rest ih =>
    have hlt := lt_length_of_lookup ha
    have hm := CowRc.mutate_exclusive ha hs hw f
    have ha2 :
        (h.set c.rc.id { a with value := f a.value })[c.rc.id]? =
          some ⟨f a.value, 1, 0⟩ := by
      rw [List.getElem?_set_eq_of_lt _ hlt, hs, hw]
    have hrec := ih ha2 rfl rfl
    simp only [CowRc.mutateSeq, hm]
    refine ⟨hrec.1, by simpa using hrec.2.1, ?_, ?_⟩
    · rw [hrec.2.2.1]
      simp
    · simpa [List.foldl] using hrec.2.2.2

/-- C3 witness: three consecutive mutations on a freshly constructed
pointer (heap `[⟨5, 1, 0⟩]`): same pointer, zero clones, value
`((5+1)*2)+3 = 15` in place. -/
theorem C3_exclusive_no_duplication_witness :
    (([⟨5, 1, 0⟩] : Heap Nat)[(⟨⟨0⟩⟩ : CowRc).rc.id]? =
        some ⟨5, 1, 0⟩) ∧
    ((CowRc.mutateSeq [fun x => x + 1, fun x => x * 2, fun x => x + 3]
        [⟨5, 1, 0⟩] ⟨⟨0⟩⟩).2.1 = ⟨⟨0⟩⟩ ∧
    (CowRc.mutateSeq [fun x => x + 1, fun x => x * 2, fun x => x + 3]
        [⟨5, 1, 0⟩] ⟨⟨0⟩⟩).2.2 = 0 ∧
    (CowRc.mutateSeq [fun x => x + 1, fun x => x * 2, fun x => x + 3]
        [⟨5, 1, 0⟩] ⟨⟨0⟩⟩).1.length = ([⟨5, 1, 0⟩] : Heap Nat).length ∧
    (CowRc.mutateSeq [fun x => x + 1, fun x => x * 2, fun x => x + 3]
        [⟨5, 1, 0⟩] ⟨⟨0⟩⟩).1[(⟨⟨0⟩⟩ : CowRc).rc.id]? =
      some ⟨([fun x => x + 1, fun x => x * 2, fun x => x + 3] :
          List (Nat → Nat)).foldl (fun v g => g v) 5, 1, 0⟩) :=
  ⟨by decide,
    C3_exclusive_no_duplication (a := ⟨5, 1, 0⟩)
      [fun x => x + 1, fun x => x * 2, fun x => x + 3] (by decide)
      (by decide) (by decide)⟩

/-- C4: the uniqueness predicates reflect the counts.  For a live
pointer (strong ≥ 1), `needs_cloning_to_mutate` holds iff strong > 1
(the weak count plays no role), and `is_unique` holds iff strong = 1 and
weak = 0; moreover `needs_cloning_to_mutate` is false (and `is_unique`
true) for a freshly constructed pointer, true immediately after a clone,
and false after a downgrade when no second owner exists. -/
theorem C4_uniqueness_predicates {α : Type} {h : Heap α} {c : CowRc}
    {a : Alloc α} (v : α) (ha : h[c.rc.id]? = some a)
    (hlive : 1 ≤ a.strong) :
    (CowRc.needs_cloning_to_mutate h c = true ↔ 1 < a.strong) ∧
    (CowRc.is_unique h c = true ↔ (a.strong = 1 ∧ a.weak = 0)) ∧
    CowRc.needs_cloning_to_mutate (CowRc.new h v).1 (CowRc.new h v).2 =
      false ∧
    CowRc.is_unique (CowRc.new h v).1 (CowRc.new h v).2 = true ∧
    CowRc.needs_cloning_to_mutate (CowRc.clone h c).1
      (CowRc.clone h c).2 = true ∧
    (a.strong = 1 →
      CowRc.needs_cloning_to_mutate (CowRc.downgrade h c).1 c = false) := by
  have hlt := lt_length_of_lookup ha
  have hsnz : a.strong ≠ 0 := by omega
  have hfresh : (h ++ [(⟨v, 1, 0⟩ : Alloc α)])[h.length]? =
      some ⟨v, 1, 0⟩ := List.getElem?_concat_length _ _
  refine ⟨?_, ?_, ?_, ?_, ?_, ?_⟩
  · simp [CowRc.needs_cloning_to_mutate, Rc.strong_count, ha]
  · simp only [CowRc.is_unique, CowRc.needs_cloning_to_mutate,
      Rc.strong_count, Rc.weak_count, ha, hsnz, if_false, ite_false,
      Bool.and_eq_true, Bool.not_eq_true', decide_eq_false_iff_not,
      decide_eq_true_eq, not_lt]
    omega
  · simp [CowRc.needs_cloning_to_mutate, Rc.strong_count, CowRc.new,
      Rc.new, CowRc.from_rc, hfresh]
  · simp [CowRc.is_unique, CowRc.needs_cloning_to_mutate,
      Rc.strong_count, Rc.weak_count, CowRc.new, Rc.new, CowRc.from_rc,
      hfresh]
  · have hset : (h.set c.rc.id
        { a with strong := a.strong + 1 })[c.rc.id]? =
          some { a with strong := a.strong + 1 } :=
      List.getElem?_set_eq_of_lt _ hlt
    simp [CowRc.clone, Rc.clone, CowRc.from_rc, heapModify, ha,
      CowRc.needs_cloning_to_mutate, Rc.strong_count, hset]
    omega
  · intro hone
    have hset : (h.set c.rc.id
        { a with weak := a.weak + 1 })[c.rc.id]? =
          some { a with weak := a.weak + 1 } :=
      List.getElem?_set_eq_of_lt _ hlt
    rw [hone] at hset
    simp [CowRc.downgrade, Rc.downgrade, heapModify, ha,
      CowRc.needs_cloning_to_mutate, Rc.strong_count, hone, hset]

/-- C4 witness: heap `[⟨5, 1, 0⟩]` with its owning pointer: not shared,
unique, shared right after a clone, still not shared after a downgrade. -/
theorem C4_uniqueness_predicates_witness :
    (([⟨5, 1, 0⟩] : Heap Nat)[(⟨⟨0⟩⟩ : CowRc).rc.id]? =
        some ⟨5, 1, 0⟩) ∧
    ((CowRc.needs_cloning_to_mutate ([⟨5, 1, 0⟩] : Heap Nat) ⟨⟨0⟩⟩ =
        true ↔ 1 < (⟨5, 1, 0⟩ : Alloc Nat).strong) ∧
    (CowRc.is_unique ([⟨5, 1, 0⟩] : Heap Nat) ⟨⟨0⟩⟩ = true ↔
      ((⟨5, 1, 0⟩ : Alloc Nat).strong = 1 ∧
        (⟨5, 1, 0⟩ : Alloc Nat).weak = 0)) ∧
    CowRc.needs_cloning_to_mutate
      (CowRc.new ([⟨5, 1, 0⟩] : Heap Nat) 7).1
      (CowRc.new ([⟨5, 1, 0⟩] : Heap Nat) 7).2 = false ∧
    CowRc.is_unique (CowRc.new ([⟨5, 1, 0⟩] : Heap Nat) 7).1
      (CowRc.new ([⟨5, 1, 0⟩] : Heap Nat) 7).2 = true ∧
    CowRc.needs_cloning_to_mutate
      (CowRc.clone ([⟨5, 1, 0⟩] : Heap Nat) ⟨⟨0⟩⟩).1
      (CowRc.clone ([⟨5, 1, 0⟩] : Heap Nat) ⟨⟨0⟩⟩).2 = true ∧
    ((⟨5, 1, 0⟩ : Alloc Nat).strong = 1 →
      CowRc.needs_cloning_to_mutate
        (CowRc.downgrade ([⟨5, 1, 0⟩] : Heap Nat) ⟨⟨0⟩⟩).1 ⟨⟨0⟩⟩ =
          false)) :=
  ⟨by decide,
    C4_uniqueness_predicates (a := ⟨5, 1, 0⟩) 7 (by decide) (by decide)⟩

/-- C5: upgrade succeeds exactly when a strong owner exists.  For an
observer referencing allocation `i`, `upgrade` returns a present result
iff that allocation's strong count is positive; on success it increments
the strong count and the returned pointer observes the allocation's
value; on failure it returns `none` and leaves the heap untouched; and a
default-constructed observer (`WeakCowRc::new`) always fails with no
side effects. -/
theorem C5_upgrade_iff_strong {α : Type} {h : Heap α} {w : WeakCowRc}
    {i : Nat} {a : Alloc α} (hwi : w.weak.id = some i)
    (ha : h[i]? = some a) :
    ((WeakCowRc.upgrade h w).2.isSome = true ↔ 0 < a.strong) ∧
    (0 < a.strong →
      (WeakCowRc.upgrade h w).2 = some (CowRc.from_rc ⟨i⟩) ∧
      (WeakCowRc.upgrade h w).1 =
        h.set i { a with strong := a.strong + 1 } ∧
      Rc.strong_count (WeakCowRc.upgrade h w).1 ⟨i⟩ = a.strong + 1 ∧
      CowRc.deref (WeakCowRc.upgrade h w).1 (CowRc.from_rc ⟨i⟩) =
        some a.value) ∧
    (a.strong = 0 → WeakCowRc.upgrade h w = (h, none)) ∧
    WeakCowRc.upgrade h (WeakCowRc.new) = (h, none) := by
  have hlt := lt_length_of_lookup ha
  have hset : (h.set i { a with strong := a.strong + 1 })[i]? =
      some { a with strong := a.strong + 1 } :=
    List.getElem?_set_eq_of_lt _ hlt
  refine ⟨?_, ?_, ?_, ?_⟩
  · simp only [WeakCowRc.upgrade, Weak.upgrade, hwi, ha]
    by_cases hz : a.strong = 0
    · simp [hz]
    · simp [hz]
      omega
  · intro hpos
    have hz : ¬a.strong = 0 := by omega
    simp [WeakCowRc.upgrade, Weak.upgrade, hwi, ha, hz, CowRc.from_rc,
      Rc.strong_count, CowRc.deref, Rc.deref, hset]
  · intro hz
    simp [WeakCowRc.upgrade, Weak.upgrade, hwi, ha, hz]
  · rfl

/-- C5 witness: heap `[⟨75, 1, 1⟩]` (value 75, one owner, one observer):
the observer of allocation 0 upgrades successfully, the strong count
becomes 2 and the upgraded pointer reads 75. -/
theorem C5_upgrade_iff_strong_witness :
    ((⟨⟨some 0⟩⟩ : WeakCowRc).weak.id = some 0) ∧
    (([⟨75, 1, 1⟩] : Heap Nat)[0]? = some ⟨75, 1, 1⟩) ∧
    (((WeakCowRc.upgrade ([⟨75, 1, 1⟩] : Heap Nat)
        ⟨⟨some 0⟩⟩).2.isSome = true ↔
        0 < (⟨75, 1, 1⟩ : Alloc Nat).strong) ∧
    (0 < (⟨75, 1, 1⟩ : Alloc Nat).strong →
      (WeakCowRc.upgrade ([⟨75, 1, 1⟩] : Heap Nat) ⟨⟨some 0⟩⟩).2 =
        some (CowRc.from_rc ⟨0⟩) ∧
      (WeakCowRc.upgrade ([⟨75, 1, 1⟩] : Heap Nat) ⟨⟨some 0⟩⟩).1 =
        ([⟨75, 1, 1⟩] : Heap Nat).set 0 ⟨75, 2, 1⟩ ∧
      Rc.strong_count
        (WeakCowRc.upgrade ([⟨75, 1, 1⟩] : Heap Nat) ⟨⟨some 0⟩⟩).1
        ⟨0⟩ = (⟨75, 1, 1⟩ : Alloc Nat).strong + 1 ∧
      CowRc.deref
        (WeakCowRc.upgrade ([⟨75, 1, 1⟩] : Heap Nat) ⟨⟨some 0⟩⟩).1
        (CowRc.from_rc ⟨0⟩) = some 75) ∧
    ((⟨75, 1, 1⟩ : Alloc Nat).strong = 0 →
      WeakCowRc.upgrade ([⟨75, 1, 1⟩] : Heap Nat) ⟨⟨some 0⟩⟩ =
        (([⟨75, 1, 1⟩] : Heap Nat), none)) ∧
    WeakCowRc.upgrade ([⟨75, 1, 1⟩] : Heap Nat) (WeakCowRc.new) =
      (([⟨75, 1, 1⟩] : Heap Nat), none)) :=
  ⟨by decide, by decide,
    C5_upgrade_iff_strong (a := ⟨75, 1, 1⟩) (by decide) (by decide)⟩

/-- C6: structural equality, ordering and hashing.  Two pointers
constructed independently from `x` and `y` occupy distinct allocations,
yet compare equal iff `x = y`, compare under the value ordering exactly
as `x` and `y` do, and hash equal whenever `x = y`; and all three
operations depend only on the contained values, never on allocation
identity (pointers whose dereferences agree are interchangeable). -/
theorem C6_structural_comparison {α : Type} [DecidableEq α]
    {h g : Heap α} (x y : α) (cmpv : α → α → Ordering) (hf : α → Nat)
    (c d c2 d2 : CowRc)
    (hcc : Rc.deref g c.rc = Rc.deref g c2.rc)
    (hdd : Rc.deref g d.rc = Rc.deref g d2.rc) :
    (CowRc.new h x).2.rc.id ≠
      (CowRc.new (CowRc.new h x).1 y).2.rc.id ∧
    CowRc.eqv (CowRc.new (CowRc.new h x).1 y).1 (CowRc.new h x).2
      (CowRc.new (CowRc.new h x).1 y).2 = decide (x = y) ∧
    CowRc.cmp cmpv (CowRc.new (CowRc.new h x).1 y).1 (CowRc.new h x).2
      (CowRc.new (CowRc.new h x).1 y).2 = some (cmpv x y) ∧
    (x = y →
      CowRc.hashv hf (CowRc.new (CowRc.new h x).1 y).1
          (CowRc.new h x).2 =
        CowRc.hashv hf (CowRc.new (CowRc.new h x).1 y).1
          (CowRc.new (CowRc.new h x).1 y).2) ∧
    CowRc.eqv g c d = CowRc.eqv g c2 d2 ∧
    CowRc.cmp cmpv g c d = CowRc.cmp cmpv g c2 d2 ∧
    CowRc.hashv hf g c = CowRc.hashv hf g c2 := by
  have e1 : (h ++ [(⟨x, 1, 0⟩ : Alloc α), ⟨y, 1, 0⟩])[h.length]? =
      some ⟨x, 1, 0⟩ := by
    rw [List.getElem?_append_right (Nat.le_refl _)]
    simp
  have e2 : (h ++ [(⟨x, 1, 0⟩ : Alloc α), ⟨y, 1, 0⟩])[h.length + 1]? =
      some ⟨y, 1, 0⟩ := by
    rw [List.getElem?_append_right (by omega)]
    simp
  refine ⟨?_, ?_, ?_, ?_, ?_, ?_, ?_⟩
  · simp [CowRc.new, Rc.new, CowRc.from_rc]
  · simp [CowRc.new, Rc.new, CowRc.from_rc, CowRc.eqv, Rc.deref, e1, e2]
  · simp [CowRc.new, Rc.new, CowRc.from_rc, CowRc.cmp, Rc.deref, e1, e2]
  · intro hxy
    subst hxy
    have e2x : (h ++ [(⟨x, 1, 0⟩ : Alloc α),
        ⟨x, 1, 0⟩])[h.length + 1]? = some ⟨x, 1, 0⟩ := by
      rw [List.getElem?_append_right (by omega)]
      simp
    simp [CowRc.new, Rc.new, CowRc.from_rc, CowRc.hashv, Rc.deref, e1,
      e2x]
  · simp [CowRc.eqv, hcc, hdd]
  · simp [CowRc.cmp, hcc, hdd]
  · simp [CowRc.hashv, hcc]

/-- C6 witness: two pointers independently built from 3 and 3 on an
empty heap occupy allocations 0 and 1 yet compare equal, order as
`compare 3 3` and hash equal. -/
theorem C6_structural_comparison_witness :
    (Rc.deref ([⟨3, 1, 0⟩] : Heap Nat) (⟨⟨0⟩⟩ : CowRc).rc =
      Rc.deref ([⟨3, 1, 0⟩] : Heap Nat) (⟨⟨0⟩⟩ : CowRc).rc) ∧
    ((CowRc.new ([] : Heap Nat) 3).2.rc.id ≠
      (CowRc.new (CowRc.new ([] : Heap Nat) 3).1 3).2.rc.id ∧
    CowRc.eqv (CowRc.new (CowRc.new ([] : Heap Nat) 3).1 3).1
      (CowRc.new ([] : Heap Nat) 3).2
      (CowRc.new (CowRc.new ([] : Heap Nat) 3).1 3).2 =
        decide ((3 : Nat) = 3) ∧
    CowRc.cmp compare (CowRc.new (CowRc.new ([] : Heap Nat) 3).1 3).1
      (CowRc.new ([] : Heap Nat) 3).2
      (CowRc.new (CowRc.new ([] : Heap Nat) 3).1 3).2 =
        some (compare (3 : Nat) 3) ∧
    ((3 : Nat) = 3 →
      CowRc.hashv (fun n => n)
          (CowRc.new (CowRc.new ([] : Heap Nat) 3).1 3).1
          (CowRc.new ([] : Heap Nat) 3).2 =
        CowRc.hashv (fun n => n)
          (CowRc.new (CowRc.new ([] : Heap Nat) 3).1 3).1
          (CowRc.new (CowRc.new ([] : Heap Nat) 3).1 3).2) ∧
    CowRc.eqv ([⟨3, 1, 0⟩] : Heap Nat) ⟨⟨0⟩⟩ ⟨⟨0⟩⟩ =
      CowRc.eqv ([⟨3, 1, 0⟩] : Heap Nat) ⟨⟨0⟩⟩ ⟨⟨0⟩⟩ ∧
    CowRc.cmp compare ([⟨3, 1, 0⟩] : Heap Nat) ⟨⟨0⟩⟩ ⟨⟨0⟩⟩ =
      CowRc.cmp compare ([⟨3, 1, 0⟩] : Heap Nat) ⟨⟨0⟩⟩ ⟨⟨0⟩⟩ ∧
    CowRc.hashv (fun n => n) ([⟨3, 1, 0⟩] : Heap Nat) ⟨⟨0⟩⟩ =
      CowRc.hashv (fun n => n) ([⟨3, 1, 0⟩] : Heap Nat) ⟨⟨0⟩⟩) :=
  ⟨rfl,
    C6_structural_comparison (h := ([] : Heap Nat))
      (g := ([⟨3, 1, 0⟩] : Heap Nat)) 3 3 compare (fun n => n)
      ⟨⟨0⟩⟩ ⟨⟨0⟩⟩ ⟨⟨0⟩⟩ ⟨⟨0⟩⟩ rfl rfl⟩

/-- C8: owning a borrowed view.  `to_owned` on a borrowed sequence view
and on a borrowed text view returns a pointer to a fresh, uniquely-owned
allocation (strong = 1, weak = 0) whose contents equal the view's
contents element-for-element (byte-for-byte for text); every allocation
that existed before is unchanged. -/
theorem C8_to_owned_fresh_unique {α : Type} (h : Heap (List α))
    (s : List α) (g : Heap String) (t : String) (j : Nat)
    (hj : j < h.length) (k : Nat) (hk : k < g.length) :
    (ToCowRcSlice.to_owned h s).2.rc.id = h.length ∧
    (ToCowRcSlice.to_owned h s).1[h.length]? = some ⟨s, 1, 0⟩ ∧
    CowRc.deref (ToCowRcSlice.to_owned h s).1
      (ToCowRcSlice.to_owned h s).2 = some s ∧
    (ToCowRcSlice.to_owned h s).1[j]? = h[j]? ∧
    (ToCowRcStr.to_owned g t).2.rc.id = g.length ∧
    (ToCowRcStr.to_owned g t).1[g.length]? = some ⟨t, 1, 0⟩ ∧
    CowRc.deref (ToCowRcStr.to_owned g t).1
      (ToCowRcStr.to_owned g t).2 = some t ∧
    (ToCowRcStr.to_owned g t).1[k]? = g[k]? := by
  refine ⟨rfl, List.getElem?_concat_length _ _, ?_,
    List.getElem?_append_left hj, rfl,
    List.getElem?_concat_length _ _, ?_,
    List.getElem?_append_left hk⟩
  · simp [ToCowRcSlice.to_owned, CowRc.new, Rc.new, CowRc.from_rc,
      CowRc.deref, Rc.deref, List.getElem?_concat_length]
  · simp [ToCowRcStr.to_owned, CowRc.new, Rc.new, CowRc.from_rc,
      CowRc.deref, Rc.deref, List.getElem?_concat_length]

/-- C8 witness: owning the borrowed slice `[1, 2, 3]` over a one-entry
heap and the borrowed text "Toto" over a one-entry heap. -/
theorem C8_to_owned_fresh_unique_witness :
    ((0 : Nat) < ([⟨[9], 1, 0⟩] : Heap (List Nat)).length ∧
      (0 : Nat) < ([⟨"a", 1, 0⟩] : Heap String).length) ∧
    ((ToCowRcSlice.to_owned ([⟨[9], 1, 0⟩] : Heap (List Nat))
        [1, 2, 3]).2.rc.id = ([⟨[9], 1, 0⟩] : Heap (List Nat)).length ∧
    (ToCowRcSlice.to_owned ([⟨[9], 1, 0⟩] : Heap (List Nat))
        [1, 2, 3]).1[([⟨[9], 1, 0⟩] : Heap (List Nat)).length]? =
      some ⟨[1, 2, 3], 1, 0⟩ ∧
    CowRc.deref
      (ToCowRcSlice.to_owned ([⟨[9], 1, 0⟩] : Heap (List Nat))
        [1, 2, 3]).1
      (ToCowRcSlice.to_owned ([⟨[9], 1, 0⟩] : Heap (List Nat))
        [1, 2, 3]).2 = some [1, 2, 3] ∧
    (ToCowRcSlice.to_owned ([⟨[9], 1, 0⟩] : Heap (List Nat))
        [1, 2, 3]).1[0]? = ([⟨[9], 1, 0⟩] : Heap (List Nat))[0]? ∧
    (ToCowRcStr.to_owned ([⟨"a", 1, 0⟩] : Heap String)
        "Toto").2.rc.id = ([⟨"a", 1, 0⟩] : Heap String).length ∧
    (ToCowRcStr.to_owned ([⟨"a", 1, 0⟩] : Heap String)
        "Toto").1[([⟨"a", 1, 0⟩] : Heap String).length]? =
      some ⟨"Toto", 1, 0⟩ ∧
    CowRc.deref
      (ToCowRcStr.to_owned ([⟨"a", 1, 0⟩] : Heap String) "Toto").1
      (ToCowRcStr.to_owned ([⟨"a", 1, 0⟩] : Heap String) "Toto").2 =
        some "Toto" ∧
    (ToCowRcStr.to_owned ([⟨"a", 1, 0⟩] : Heap String)
        "Toto").1[0]? = ([⟨"a", 1, 0⟩] : Heap String)[0]?) :=
  ⟨⟨by decide, by decide⟩,
    C8_to_owned_fresh_unique ([⟨[9], 1, 0⟩] : Heap (List Nat)) [1, 2, 3]
      ([⟨"a", 1, 0⟩] : Heap String) "Toto" 0 (by decide) 0 (by decide)⟩

/-- C9: round trips.  Constructing a pointer from a value and reading it
back yields that value; building a `CowRc<[T]>` from the items an
iterator yields (`FromIterator`) and converting it to a growable buffer
(`From<CowRc<[T]>> for Vec<T>`) yields the same element sequence. -/
theorem C9_round_trips {α : Type} (h : Heap α) (v : α)
    (g : Heap (List α)) (l : List α) :
    CowRc.deref (CowRc.new h v).1 (CowRc.new h v).2 = some v ∧
    CowRc.to_vec (CowRc.from_iter g l).1 (CowRc.from_iter g l).2 =
      some l := by
  constructor
  · simp [CowRc.new, Rc.new, CowRc.from_rc, CowRc.deref, Rc.deref,
      List.getElem?_concat_length]
  · simp [CowRc.from_iter, CowRc.to_vec, CowRc.new, Rc.new,
      CowRc.from_rc, CowRc.deref, Rc.deref, List.getElem?_concat_length]

/-- C10: raw-handle conversions are inverse and effect-free.
`unwrap_rc (from_rc r) = r`, `from_rc (unwrap_rc c) = c`, `as_rc` agrees
with `unwrap_rc`, and none of the three touches the heap: the strong
count, weak count and contained value observed through any heap are
unchanged by wrapping or unwrapping. -/
theorem C10_raw_handle_inverse {α : Type} (h : Heap α) (r : RcPtr)
    (c : CowRc) :
    CowRc.unwrap_rc (CowRc.from_rc r) = r ∧
    CowRc.from_rc (CowRc.unwrap_rc c) = c ∧
    CowRc.as_rc (CowRc.from_rc r) = r ∧
    CowRc.as_rc c = CowRc.unwrap_rc c ∧
    Rc.strong_count h (CowRc.from_rc r).rc = Rc.strong_count h r ∧
    Rc.weak_count h (CowRc.from_rc r).rc = Rc.weak_count h r ∧
    Rc.deref h (CowRc.from_rc r).rc = Rc.deref h r ∧
    Rc.strong_count h (CowRc.unwrap_rc c) = Rc.strong_count h c.rc ∧
    Rc.weak_count h (CowRc.unwrap_rc c) = Rc.weak_count h c.rc ∧
    Rc.deref h (CowRc.unwrap_rc c) = Rc.deref h c.rc ∧
    Rc.strong_count h (CowRc.as_rc c) = Rc.strong_count h c.rc ∧
    Rc.weak_count h (CowRc.as_rc c) = Rc.weak_count h c.rc ∧
    Rc.deref h (CowRc.as_rc c) = Rc.deref h c.rc :=
  ⟨rfl, rfl, rfl, rfl, rfl, rfl, rfl, rfl, rfl, rfl, rfl, rfl, rfl⟩

/-! Correspondence between the two variants, operation by operation. -/

theorem CowArc.mutate_toArc (f : α → α) (h : Heap α) (c : CowRc) :
    CowArc.mutate f h (CowRc.toArc c) =
      ((CowRc.mutate f h c).1, CowRc.toArc (CowRc.mutate f h c).2.1,
        (CowRc.mutate f h c).2.2) := by
  simp only [CowArc.mutate, CowRc.mutate, Arc.make_mut, Rc.make_mut,
    CowRc.toArc]
  cases h[c.rc.id]? with
  | none => rfl
  | some a =>
    by_cases hs : a.strong = 1 <;> by_cases hw : a.weak = 0 <;>
      simp [hs, hw, CowRc.from_rc, CowArc.from_arc]

theorem WeakCowArc.upgrade_toArc (h : Heap α) (w : WeakCowRc) :
    WeakCowArc.upgrade h (WeakCowRc.toArc w) =
      ((WeakCowRc.upgrade h w).1,
        (WeakCowRc.upgrade h w).2.map CowRc.toArc) := by
  simp only [WeakCowArc.upgrade, WeakCowRc.upgrade, SyncWeak.upgrade,
    Weak.upgrade, WeakCowRc.toArc]
  cases w.weak.id with
  | none => rfl
  | some i =>
    cases hhi : h[i]? with
    | none => simp [hhi]
    | some a =>
      by_cases hz : a.strong = 0 <;>
        simp [hhi, hz, CowRc.toArc, CowRc.from_rc, CowArc.from_arc]

theorem RcMachine.step_toArc (s : RcMachine α) (op : Op α) :
    ArcMachine.step (RcMachine.toArc s) op =
      (RcMachine.toArc (RcMachine.step s op).1,
        (RcMachine.step s op).2) := by
  cases op with
  | construct v =>
    simp [RcMachine.step, ArcMachine.step, RcMachine.toArc, CowRc.new,
      CowArc.new, Rc.new, Arc.new, CowRc.from_rc, CowArc.from_arc,
      CowRc.toArc]
  | clonePtr p =>
    simp only [RcMachine.step, ArcMachine.step, RcMachine.toArc,
      List.getElem?_map]
    cases hc : s.ptrs[p]? with
    | none => rfl
    | some c =>
      simp [CowRc.clone, CowArc.clone, Rc.clone, Arc.clone, heapModify,
        CowRc.toArc, CowRc.from_rc, CowArc.from_arc]
  | borrow p =>
    simp only [RcMachine.step, ArcMachine.step, RcMachine.toArc,
      List.getElem?_map]
    cases hc : s.ptrs[p]? with
    | none => rfl
    | some c => simp [CowArc.deref, CowRc.deref, Arc.deref, Rc.deref,
        CowRc.toArc]
  | mutate p f =>
    simp only [RcMachine.step, ArcMachine.step, RcMachine.toArc,
      List.getElem?_map]
    cases hc : s.ptrs[p]? with
    | none => rfl
    | some c =>
      simp [CowArc.mutate_toArc, List.map_set]
  | downgrade p =>
    simp only [RcMachine.step, ArcMachine.step, RcMachine.toArc,
      List.getElem?_map]
    cases hc : s.ptrs[p]? with
    | none => rfl
    | some c =>
      simp [CowRc.downgrade, CowArc.downgrade, Rc.downgrade,
        Arc.downgrade, heapModify, CowRc.toArc, WeakCowRc.toArc]
  | weakNew =>
    simp [RcMachine.step, ArcMachine.step, RcMachine.toArc,
      WeakCowRc.new, WeakCowArc.new, Weak.new, SyncWeak.new,
      WeakCowRc.toArc]
  | upgrade w =>
    simp only [RcMachine.step, ArcMachine.step, RcMachine.toArc,
      List.getElem?_map]
    cases hw : s.weaks[w]? with
    | none => rfl
    | some wc =>
      have hu := WeakCowArc.upgrade_toArc s.heap wc
      simp only [Option.map_some']
      rw [hu]
      cases hr : (WeakCowRc.upgrade s.heap wc).2 with
      | none => simp [hr]
      | some c => simp [hr, CowRc.toArc]
  | needsCloning p =>
    simp only [RcMachine.step, ArcMachine.step, RcMachine.toArc,
      List.getElem?_map]
    cases hc : s.ptrs[p]? with
    | none => rfl
    | some c => rfl
  | isUnique p =>
    simp only [RcMachine.step, ArcMachine.step, RcMachine.toArc,
      List.getElem?_map]
    cases hc : s.ptrs[p]? with
    | none => rfl
    | some c => rfl
  | strongCount p =>
    simp only [RcMachine.step, ArcMachine.step, RcMachine.toArc,
      List.getElem?_map]
    cases hc : s.ptrs[p]? with
    | none => rfl
    | some c => rfl
  | weakCount p =>
    simp only [RcMachine.step, ArcMachine.step, RcMachine.toArc,
      List.getElem?_map]
    cases hc : s.ptrs[p]? with
    | none => rfl
    | some c => rfl

/-- C7: identical contract of the two variants.  For every sequence of
single-threaded operations (construct, clone, borrow, mutable access,
downgrade, upgrade, the count predicates), interpreting with the
thread-confined family (`CowRc`/`WeakCowRc`) and with the thread-safe
family (`CowArc`/`WeakCowArc`) from corresponding states produces the
identical trace of observable results. -/
theorem C7_variants_identical_contract {α : Type} (s : RcMachine α)
    (ops : List (Op α)) :
    ArcMachine.run (RcMachine.toArc s) ops = RcMachine.run s ops := by
  induction ops generalizing s with
  | nil => rfl
  | cons op rest ih =>
    simp only [ArcMachine.run, RcMachine.run, RcMachine.step_toArc]
    exact congrArg _ (ih _)

end OptMut
